import Mathlib

/-!
Shallow embedding of the request-security layer of the clawsuite server:
`src/server/auth-middleware.ts` (session token store, password verification,
CSRF double-submit guard, request authorizer) and the in-memory rate-limiter
module (`rateLimit`, `getClientIp`, and its cleanup sweep).

Modelling conventions:
* a JavaScript `Map` is an insertion-ordered association list (`JsMap`);
* `Date.now()` is an explicit `now : Nat` (session store) or `now : Int`
  (rate limiter) argument;
* `process.env` is an explicit `Env` record, `none` meaning an unset variable;
* a `Buffer` is a `List Nat` of byte values;
* a thrown exception is an `Except.error`; functions of the source that catch
  every exception are total Lean functions;
* JavaScript string operations used by the source (split, trim, startsWith,
  substring, toUpperCase, includes) are re-implemented structurally over
  `List Char` so that every definition evaluates by `decide`/`rfl`.
-/

namespace ClawSuite

/-! ### JavaScript string operations -/

/-- Splitting a character list at every occurrence of `sep`; the accumulator
holds the current piece reversed.  `splitOnCharAux sep cs []` matches
JavaScript `s.split(sep)` for a one-character separator: it always returns at
least one (possibly empty) piece and keeps empty pieces. -/
def splitOnCharAux (sep : Char) : List Char → List Char → List (List Char)
  | [], acc => [acc.reverse]
  | c :: rest, acc =>
    if c = sep then acc.reverse :: splitOnCharAux sep rest []
    else splitOnCharAux sep rest (c :: acc)

/-- JavaScript `s.split(sep)` for a one-character separator. -/
def jsSplit (sep : Char) (s : String) : List String :=
  (splitOnCharAux sep s.toList []).map String.mk

/-- Whitespace removal from both ends of a character list. -/
def trimChars (cs : List Char) : List Char :=
  ((cs.dropWhile Char.isWhitespace).reverse.dropWhile Char.isWhitespace).reverse

/-- JavaScript `s.trim()`. -/
def jsTrim (s : String) : String :=
  String.mk (trimChars s.toList)

/-- Boolean prefix test on character lists. -/
def isPrefixList : List Char → List Char → Bool
  | [], _ => true
  | _ :: _, [] => false
  | a :: as, b :: bs => a == b && isPrefixList as bs

/-- JavaScript `s.startsWith(pre)`. -/
def jsStartsWith (pre s : String) : Bool :=
  isPrefixList pre.toList s.toList

/-- JavaScript `s.substring(n)` (drop the first `n` characters). -/
def jsDropChars (n : Nat) (s : String) : String :=
  String.mk (s.toList.drop n)

/-- JavaScript `s.toUpperCase()` (ASCII letters, which is all the source
compares against). -/
def jsToUpper (s : String) : String :=
  String.mk (s.toList.map Char.toUpper)

/-- JavaScript `s.includes(c)` for a one-character needle. -/
def strContainsChar (c : Char) (s : String) : Bool :=
  s.toList.any (fun a => a == c)

/-- The UTF-8 encoding of one character as byte values. -/
def utf8Bytes (c : Char) : List Nat :=
  let n := c.toNat
  if n < 128 then [n]
  else if n < 2048 then [192 + n / 64, 128 + n % 64]
  else if n < 65536 then [224 + n / 4096, 128 + n / 64 % 64, 128 + n % 64]
  else [240 + n / 262144, 128 + n / 4096 % 64, 128 + n / 64 % 64, 128 + n % 64]

/-- `Buffer.from(s, 'utf8')` as a list of byte values. -/
def strBytes (s : String) : List Nat :=
  (s.toList.map utf8Bytes).flatten

/-- `crypto.timingSafeEqual`: throws (`Except.error`) when the buffer lengths
differ, otherwise reports byte equality. -/
def timingSafeEqualE (a b : List Nat) : Except Unit Bool :=
  if a.length = b.length then .ok (decide (a = b)) else .error ()

/-- Value of one hexadecimal digit, as accepted by `Buffer.from(-, 'hex')`. -/
def hexVal (c : Char) : Option Nat :=
  if c.isDigit then some (c.toNat - 48)
  else if 'a' ≤ c ∧ c ≤ 'f' then some (c.toNat - 87)
  else if 'A' ≤ c ∧ c ≤ 'F' then some (c.toNat - 55)
  else none

/-- `Buffer.from(s, 'hex')` (Node semantics): decode leading complete pairs of
hexadecimal digits, stopping at the first invalid character or odd leftover;
never throws. -/
def hexDecodeList : List Char → List Nat
  | c1 :: c2 :: rest =>
    match hexVal c1, hexVal c2 with
    | some hi, some lo => (16 * hi + lo) :: hexDecodeList rest
    | _, _ => []
  | _ => []

/-- Leading decimal digits of a character list. -/
def leadingDigits : List Char → List Char
  | c :: rest => if c.isDigit then c :: leadingDigits rest else []
  | [] => []

/-- JavaScript `parseInt(s, 10)`: skip leading whitespace, optional sign, read
the leading run of digits; `none` models a `NaN` result. -/
def jsParseInt (s : String) : Option Int :=
  let cs := s.toList.dropWhile Char.isWhitespace
  let signed : Bool × List Char :=
    match cs with
    | '-' :: rest => (true, rest)
    | '+' :: rest => (false, rest)
    | _ => (false, cs)
  let ds := leadingDigits signed.2
  if ds.isEmpty then none
  else
    let n : Nat := ds.foldl (fun a c => 10 * a + (c.toNat - 48)) 0
    some (if signed.1 then -(n : Int) else (n : Int))

/-! ### JavaScript `Map` model -/

/-- Insertion-ordered association list modelling a JavaScript `Map` with
string keys. -/
abbrev JsMap (β : Type) := List (String × β)

/-- The JS `Map.get`: value at the first matching key, `none` for a missing
key (JS `undefined`). -/
def mapGet {β : Type} : JsMap β → String → Option β
  | [], _ => none
  | (k1, v) :: rest, k => if k1 = k then some v else mapGet rest k

/-- The JS `Map.has`. -/
def mapContains {β : Type} (m : JsMap β) (k : String) : Bool :=
  m.any (fun p => p.1 == k)

/-- The JS `Map.set`: update the value in place when the key exists (keeping
its insertion position), otherwise append the new entry at the end. -/
def mapSet {β : Type} (m : JsMap β) (k : String) (v : β) : JsMap β :=
  if mapContains m k then m.map (fun p => if p.1 = k then (k, v) else p)
  else m ++ [(k, v)]

/-- The JS `Map.delete`. -/
def mapDelete {β : Type} (m : JsMap β) (k : String) : JsMap β :=
  m.filter (fun p => p.1 != k)

/-- The JS `map.keys().next().value`: the earliest-inserted key. -/
def mapFirstKey {β : Type} (m : JsMap β) : Option String :=
  m.head?.map Prod.fst

/-! ### Environment and request -/

/-- The environment variables the two modules read from `process.env`. -/
structure Env where
  clawsuitePassword : Option String
  clawsuitePasswordHash : Option String
  trustedProxyIp : Option String
  nodeEnv : Option String
deriving DecidableEq

/-- An inbound request, reduced to the fields the source inspects:
`request.method` and the results of `request.headers.get` for the `cookie`,
`x-csrf-token`, `x-real-ip` and `x-forwarded-for` headers (`none` is JS
`null`). -/
structure Request where
  method : String
  cookie : Option String
  csrfHeader : Option String
  xRealIp : Option String
  xForwardedFor : Option String
deriving DecidableEq

/-! ### Session store (`auth-middleware.ts`) -/

/-- The module-level `validTokens` map: token to absolute expiry timestamp in
milliseconds, insertion-ordered. -/
abbrev SessionStore := JsMap Nat

def MAX_SESSIONS : Nat := 1000

def SESSION_TTL_MS : Nat := 30 * 24 * 60 * 60 * 1000

/-- `storeSessionToken` with the `MAX_SESSIONS` capacity as an explicit
parameter.  When the store is at capacity the earliest-inserted key is
deleted before inserting — except, mirroring the JS `if (oldestKey)`
falsiness test, when that key is the empty string (or the store is empty). -/
def storeSessionTokenCap (cap : Nat) (now : Nat) (token : String) (st : SessionStore) :
    SessionStore :=
  let st1 :=
    if cap ≤ st.length then
      match mapFirstKey st with
      | some oldestKey => if oldestKey = "" then st else mapDelete st oldestKey
      | none => st
    else st
  mapSet st1 token (now + SESSION_TTL_MS)

/-- `storeSessionToken` of the source (capacity `MAX_SESSIONS`). -/
def storeSessionToken (now : Nat) (token : String) (st : SessionStore) : SessionStore :=
  storeSessionTokenCap MAX_SESSIONS now token st

/-- `isValidSessionToken`, returning the boolean result together with the
updated store (the source deletes the entry when it is expired).  The
`expiresAt = 0` branch mirrors the JS falsiness of the number `0` in
`if (!expiresAt)`; `now > expiresAt` is `expiresAt < now`. -/
def isValidSessionToken (now : Nat) (token : String) (st : SessionStore) :
    Bool × SessionStore :=
  match mapGet st token with
  | none => (false, st)
  | some expiresAt =>
    if expiresAt = 0 then (false, st)
    else if expiresAt < now then (false, mapDelete st token)
    else (true, st)

/-- `revokeSessionToken`. -/
def revokeSessionToken (token : String) (st : SessionStore) : SessionStore :=
  mapDelete st token

/-! ### Password verification (`auth-middleware.ts`) -/

/-- `isPasswordProtectionEnabled`: a non-empty plaintext secret or a
non-empty hash descriptor is configured. -/
def isPasswordProtectionEnabled (env : Env) : Bool :=
  (match env.clawsuitePassword with
   | some p => decide (0 < p.length)
   | none => false)
  || (match env.clawsuitePasswordHash with
      | some h => decide (0 < h.length)
      | none => false)

/-- The body of the `try` block of `verifyPassword`: destructure the
`salt:iterations:hash` descriptor, derive a key, compare in constant time.
`derive password salt iterations` stands for the 32 output bytes of
`pbkdf2Sync(password, salt, iterations, 32, 'sha256')` (the source's
hex-encode of the derived buffer followed by `Buffer.from(-, 'hex')` is the
identity on those bytes).  `Except.error` models a thrown exception:
`parseInt` yielding `NaN` or a count below 1 (both rejected by `pbkdf2Sync`),
a missing third component (`Buffer.from(undefined, 'hex')` throws), or
`timingSafeEqual` on buffers of different lengths. -/
def hashVerifyAttempt (derive : String → String → Nat → List Nat)
    (hashedConfig password : String) : Except Unit Bool :=
  let parts := jsSplit ':' hashedConfig
  let salt := parts.headD ""
  let iterationsStr := parts.getD 1 ""
  match jsParseInt iterationsStr with
  | none => .error ()
  | some iters =>
    if iters < 1 then .error ()
    else
      let derived := derive password salt iters.toNat
      match parts.get? 2 with
      | none => .error ()
      | some hash => timingSafeEqualE derived (hexDecodeList hash.toList)

/-- The plaintext branch of `verifyPassword` (steps 2 onward): fail when no
plaintext secret is configured, fail on a byte-length mismatch, otherwise
compare the UTF-8 buffers (`timingSafeEqual` cannot throw there because the
lengths are equal, so its `try`/`catch` reduces to the comparison). -/
def plaintextCompare (env : Env) (password : String) : Bool :=
  match env.clawsuitePassword with
  | none => false
  | some configured =>
    if configured.length = 0 then false
    else
      let passwordBuf := strBytes password
      let configuredBuf := strBytes configured
      if passwordBuf.length ≠ configuredBuf.length then false
      else decide (passwordBuf = configuredBuf)

/-- `verifyPassword`.  The hash branch runs when a hash descriptor is
configured (JS truthiness: non-empty) and contains a colon; a caught
exception in it (`Except.error`) falls through — as the source's empty
`catch` does — to the plaintext comparison. -/
def verifyPassword (derive : String → String → Nat → List Nat) (env : Env)
    (password : String) : Bool :=
  let hashAttempt : Option Bool :=
    match env.clawsuitePasswordHash with
    | some hashedConfig =>
      if hashedConfig ≠ "" ∧ strContainsChar ':' hashedConfig then
        match hashVerifyAttempt derive hashedConfig password with
        | .ok b => some b
        | .error _ => none
      else none
    | none => none
  match hashAttempt with
  | some b => b
  | none => plaintextCompare env password

/-! ### Cookies, CSRF, request authorizer (`auth-middleware.ts`) -/

/-- Common body of `getSessionTokenFromCookie` and `getCsrfTokenFromCookie`:
a falsy (absent or empty) cookie header yields `null`; otherwise split on
`;`, trim each cookie, and return the remainder of the first one starting
with `name=`. -/
def cookieValue (name : String) (cookieHeader : Option String) : Option String :=
  match cookieHeader with
  | none => none
  | some h =>
    if h = "" then none
    else
      let cookies := (jsSplit ';' h).map jsTrim
      match cookies.find? (fun c => jsStartsWith (name ++ "=") c) with
      | some c => some (jsDropChars (name ++ "=").length c)
      | none => none

/-- `getSessionTokenFromCookie`. -/
def getSessionTokenFromCookie (cookieHeader : Option String) : Option String :=
  cookieValue "clawsuite-auth" cookieHeader

def CSRF_COOKIE_NAME : String := "clawsuite-csrf"

/-- `getCsrfTokenFromCookie`. -/
def getCsrfTokenFromCookie (cookieHeader : Option String) : Option String :=
  cookieValue CSRF_COOKIE_NAME cookieHeader

/-- `isAuthenticated`: true when password protection is disabled, otherwise
the session cookie token must be truthy and valid in the store. -/
def isAuthenticated (env : Env) (now : Nat) (st : SessionStore) (req : Request) : Bool :=
  if !isPasswordProtectionEnabled env then true
  else
    match getSessionTokenFromCookie req.cookie with
    | none => false
    | some token =>
      if token = "" then false
      else (isValidSessionToken now token st).1

/-- `validateCsrf`: safe methods pass; disabled protection passes; otherwise
both the cookie-carried and the header-carried token must be truthy
(present and non-empty), of equal byte length, and byte-equal under
`timingSafeEqual` (which cannot throw after the length check). -/
def validateCsrf (env : Env) (req : Request) : Bool :=
  let method := jsToUpper req.method
  if method = "GET" ∨ method = "HEAD" ∨ method = "OPTIONS" then true
  else if !isPasswordProtectionEnabled env then true
  else
    match getCsrfTokenFromCookie req.cookie, req.csrfHeader with
    | some cookieToken, some headerToken =>
      if cookieToken = "" ∨ headerToken = "" then false
      else
        let cookieBuf := strBytes cookieToken
        let headerBuf := strBytes headerToken
        if cookieBuf.length ≠ headerBuf.length then false
        else decide (cookieBuf = headerBuf)
    | _, _ => false

/-- An HTTP response, reduced to the fields the source sets. -/
structure HttpResponse where
  status : Nat
  body : String
  contentType : String
deriving DecidableEq

/-- The 401 response of `requireAuth`. -/
def unauthorizedResponse : HttpResponse :=
  { status := 401
    body := "\x7b\"ok\":false,\"error\":\"Unauthorized\"\x7d"
    contentType := "application/json" }

/-- The 403 response of `requireAuth`. -/
def csrfFailedResponse : HttpResponse :=
  { status := 403
    body := "\x7b\"ok\":false,\"error\":\"CSRF validation failed\"\x7d"
    contentType := "application/json" }

/-- `requireAuth`: `none` models the JS `null` that lets the caller proceed. -/
def requireAuth (env : Env) (now : Nat) (st : SessionStore) (req : Request) :
    Option HttpResponse :=
  if !isAuthenticated env now st req then some unauthorizedResponse
  else if !validateCsrf env req then some csrfFailedResponse
  else none

/-! ### Rate limiter (unnamed module) -/

/-- The rate limiter's module-level `store`: key to recorded timestamps. -/
abbrev RateStore := JsMap (List Int)

/-- `rateLimit`: fetch (or create) the entry, prune timestamps outside the
sliding window, block when at least `maxRequests` remain, otherwise record
`now`.  The returned store reflects the in-place mutation of the entry: the
pruned list is kept even on a blocked call. -/
def rateLimit (key : String) (maxRequests : Nat) (windowMs : Int) (now : Int)
    (st : RateStore) : Bool × RateStore :=
  let timestamps := (mapGet st key).getD []
  let pruned := timestamps.filter (fun t => decide (now - t < windowMs))
  if maxRequests ≤ pruned.length then (false, mapSet st key pruned)
  else (true, mapSet st key (pruned ++ [now]))

/-- The fixed cutoff of the rate limiter's cleanup sweep. -/
def CLEANUP_MAX_AGE_MS : Int := 120000

/-- One run of the module's `setInterval` cleanup (scheduled every 300000 ms):
every key's list is filtered down to timestamps younger than the fixed
120000 ms cutoff — independently of any `windowMs` ever used for that key —
and keys whose list becomes empty are deleted. -/
def rateLimitCleanup (now : Int) (st : RateStore) : RateStore :=
  (st.map (fun p => (p.1, p.2.filter (fun t => decide (now - t < CLEANUP_MAX_AGE_MS))))).filter
    (fun p => !p.2.isEmpty)

/-- The trusted-proxy test of `getClientIp`: `process.env.TRUSTED_PROXY_IP`
must be set and trim to a non-empty string. -/
def hasTrustedProxy (env : Env) : Bool :=
  match env.trustedProxyIp with
  | some s => jsTrim s != ""
  | none => false

/-- The `x-forwarded-for` fallback inside `getClientIp`: a truthy forwarded
header yields its first comma-separated piece trimmed, otherwise `'local'`. -/
def forwardedIp (req : Request) : String :=
  match req.xForwardedFor with
  | some forwarded =>
    if forwarded ≠ "" then jsTrim ((jsSplit ',' forwarded).headD "")
    else "local"
  | none => "local"

/-- `getClientIp`: forwarding headers are consulted only when a trusted proxy
is configured; otherwise the fixed placeholder `'local'` is returned. -/
def getClientIp (env : Env) (req : Request) : String :=
  if hasTrustedProxy env then
    match req.xRealIp with
    | some realIp =>
      if realIp ≠ "" then jsTrim realIp
      else forwardedIp req
    | none => forwardedIp req
  else "local"

/-! ### Request-driven session-store histories

The complete set of operations the repository defines on `validTokens`
(there is no timer-driven sweep in `auth-middleware.ts`): store a token,
check a token (with its lazy deletion), revoke a token. -/

/-- One request-driven operation on the session store. -/
inductive SessionOp where
  | store (now : Nat) (token : String)
  | check (now : Nat) (token : String)
  | revoke (token : String)
deriving DecidableEq

/-- Effect of one operation on the store. -/
def applySessionOp (st : SessionStore) : SessionOp → SessionStore
  | .store now token => storeSessionToken now token st
  | .check now token => (isValidSessionToken now token st).2
  | .revoke token => revokeSessionToken token st

/-- The store after a sequence of operations, starting from the empty map the
module initializes. -/
def runSessionOps (ops : List SessionOp) : SessionStore :=
  ops.foldl applySessionOp []

/-- The tokens a sequence of operations stores. -/
def storedTokens : List SessionOp → List String
  | [] => []
  | .store _ t :: rest => t :: storedTokens rest
  | .check _ _ :: rest => storedTokens rest
  | .revoke _ :: rest => storedTokens rest

/-- Folding `storeSessionTokenCap` over a list of tokens, all stored at the
same instant (the eviction scenario of the spec). -/
def storeSequence (cap : Nat) (now : Nat) (ts : List String) (st : SessionStore) :
    SessionStore :=
  ts.foldl (fun acc t => storeSessionTokenCap cap now t acc) st

/-- Nodup keys: the well-formedness every reachable JS `Map` state has. -/
def keysNodup {β : Type} (m : JsMap β) : Prop :=
  (m.map Prod.fst).Nodup

/-! ### Lemmas about the `JsMap` model -/

@[simp]
theorem mapGet_nil {β : Type} (k : String) : mapGet ([] : JsMap β) k = none := rfl

@[simp]
theorem mapGet_cons {β : Type} (k1 : String) (v1 : β) (rest : JsMap β) (k : String) :
    mapGet ((k1, v1) :: rest) k = if k1 = k then some v1 else mapGet rest k := rfl

theorem mapContains_eq_false_iff {β : Type} (m : JsMap β) (k : String) :
    mapContains m k = false ↔ ∀ p ∈ m, p.1 ≠ k := by
  simp [mapContains, List.any_eq_true]

theorem mapGet_eq_none_of_forall {β : Type} {m : JsMap β} {k : String}
    (h : ∀ p ∈ m, p.1 ≠ k) : mapGet m k = none := by
  induction m with
  | nil => rfl
  | cons p rest ih =>
    obtain ⟨k1, v1⟩ := p
    have hk : k1 ≠ k := h (k1, v1) (List.mem_cons_self _ _)
    rw [mapGet_cons, if_neg hk]
    exact ih fun q hq => h q (List.mem_cons_of_mem _ hq)

theorem mapGet_replace_self {β : Type} (k : String) (v : β) :
    ∀ m : JsMap β, mapContains m k = true →
      mapGet (m.map fun p => if p.1 = k then (k, v) else p) k = some v := by
  intro m
  induction m with
  | nil => intro h; simp [mapContains] at h
  | cons p rest ih =>
    intro h
    obtain ⟨k1, v1⟩ := p
    rw [List.map_cons]
    by_cases hk : k1 = k
    · subst hk
      rw [show (if (k1, v1).1 = k1 then (k1, v) else (k1, v1)) = (k1, v) from if_pos rfl]
      rw [mapGet_cons, if_pos rfl]
    · rw [show (if (k1, v1).1 = k then (k, v) else (k1, v1)) = (k1, v1) from if_neg hk]
      rw [mapGet_cons, if_neg hk]
      exact ih (by simpa [mapContains, hk] using h)

theorem mapGet_replace_ne {β : Type} (k k1 : String) (v : β) (hne : k1 ≠ k) :
    ∀ m : JsMap β, mapGet (m.map fun p => if p.1 = k then (k, v) else p) k1 = mapGet m k1 := by
  intro m
  induction m with
  | nil => rfl
  | cons p rest ih =>
    obtain ⟨k2, v2⟩ := p
    rw [List.map_cons]
    by_cases hk : k2 = k
    · subst hk
      rw [show (if (k2, v2).1 = k2 then (k2, v) else (k2, v2)) = (k2, v) from if_pos rfl]
      rw [mapGet_cons, mapGet_cons, if_neg (Ne.symm hne), if_neg (Ne.symm hne)]
      exact ih
    · rw [show (if (k2, v2).1 = k then (k, v) else (k2, v2)) = (k2, v2) from if_neg hk]
      rw [mapGet_cons, mapGet_cons]
      by_cases hk1 : k2 = k1
      · rw [if_pos hk1, if_pos hk1]
      · rw [if_neg hk1, if_neg hk1]
        exact ih

theorem mapGet_append_of_none {β : Type} {a : JsMap β} {k : String} (b : JsMap β)
    (h : mapGet a k = none) : mapGet (a ++ b) k = mapGet b k := by
  induction a with
  | nil => rfl
  | cons p rest ih =>
    obtain ⟨k1, v1⟩ := p
    by_cases hk : k1 = k
    · rw [mapGet_cons, if_pos hk] at h
      exact absurd h (by simp)
    · rw [mapGet_cons, if_neg hk] at h
      rw [List.cons_append, mapGet_cons, if_neg hk]
      exact ih h

theorem mapGet_append_single_ne {β : Type} (m : JsMap β) (k k1 : String) (v : β)
    (hne : k1 ≠ k) : mapGet (m ++ [(k, v)]) k1 = mapGet m k1 := by
  induction m with
  | nil => rw [List.nil_append, mapGet_cons, if_neg (Ne.symm hne), mapGet_nil]
  | cons p rest ih =>
    obtain ⟨k2, v2⟩ := p
    rw [List.cons_append, mapGet_cons, mapGet_cons]
    by_cases hk1 : k2 = k1
    · rw [if_pos hk1, if_pos hk1]
    · rw [if_neg hk1, if_neg hk1]
      exact ih

theorem mapGet_mapSet_self {β : Type} (m : JsMap β) (k : String) (v : β) :
    mapGet (mapSet m k v) k = some v := by
  unfold mapSet
  by_cases hc : mapContains m k
  · rw [if_pos hc]
    exact mapGet_replace_self k v m hc
  · rw [if_neg hc]
    have hnone : mapGet m k = none := by
      rw [Bool.not_eq_true] at hc
      exact mapGet_eq_none_of_forall ((mapContains_eq_false_iff m k).1 hc)
    rw [mapGet_append_of_none _ hnone, mapGet_cons, if_pos rfl]

theorem mapGet_mapSet_ne {β : Type} (m : JsMap β) {k k1 : String} (v : β)
    (hne : k1 ≠ k) : mapGet (mapSet m k v) k1 = mapGet m k1 := by
  unfold mapSet
  by_cases hc : mapContains m k
  · rw [if_pos hc]
    exact mapGet_replace_ne k k1 v hne m
  · rw [if_neg hc]
    exact mapGet_append_single_ne m k k1 v hne

theorem length_mapSet {β : Type} (m : JsMap β) (k : String) (v : β) :
    (mapSet m k v).length = if mapContains m k then m.length else m.length + 1 := by
  unfold mapSet
  by_cases hc : mapContains m k
  · simp [hc]
  · simp [hc]

theorem length_mapDelete_le {β : Type} (m : JsMap β) (k : String) :
    (mapDelete m k).length ≤ m.length :=
  List.length_filter_le _ m

theorem mapGet_mapDelete_self {β : Type} (m : JsMap β) (k : String) :
    mapGet (mapDelete m k) k = none := by
  apply mapGet_eq_none_of_forall
  intro p hp
  have := List.of_mem_filter hp
  simpa [bne_iff_ne] using this

theorem mapDelete_eq_self_of {β : Type} {m : JsMap β} {k : String}
    (h : ∀ p ∈ m, p.1 ≠ k) : mapDelete m k = m := by
  apply List.filter_eq_self.2
  intro p hp
  simpa [bne_iff_ne] using h p hp

theorem mapDelete_cons_self {β : Type} (rest : JsMap β) (k : String) (v : β) :
    mapDelete ((k, v) :: rest) k = mapDelete rest k := by
  simp [mapDelete, List.filter_cons]

theorem mapContains_append {β : Type} (a b : JsMap β) (k : String) :
    mapContains (a ++ b) k = (mapContains a k || mapContains b k) := by
  simp [mapContains, List.any_append]

theorem mapGet_const_list (l : List String) (e : Nat) (t : String) :
    mapGet (l.map fun x => (x, e)) t = if t ∈ l then some e else none := by
  induction l with
  | nil => rfl
  | cons x rest ih =>
    rw [List.map_cons, mapGet_cons, ih]
    by_cases hx : x = t
    · simp [hx]
    · rw [if_neg hx]
      by_cases ht : t ∈ rest
      · simp [ht]
      · simp [List.mem_cons, ht, Ne.symm hx]

@[simp]
theorem mapFirstKey_cons {β : Type} (k : String) (v : β) (rest : JsMap β) :
    mapFirstKey ((k, v) :: rest) = some k := rfl

theorem length_mapSet_le {β : Type} (m : JsMap β) (k : String) (v : β) :
    (mapSet m k v).length ≤ m.length + 1 := by
  rw [length_mapSet]
  split <;> omega

/-! ### Session-store helper lemmas -/

theorem length_storeCap_le (cap now : Nat) (token : String) (st : SessionStore)
    (hcap : 0 < cap) (hlen : st.length ≤ cap) (hne : ∀ p ∈ st, p.1 ≠ "") :
    (storeSessionTokenCap cap now token st).length ≤ cap := by
  unfold storeSessionTokenCap
  by_cases hc : cap ≤ st.length
  · have hlen2 : st.length = cap := le_antisymm hlen hc
    cases st with
    | nil => simp at hlen2; omega
    | cons p rest =>
      obtain ⟨k0, v0⟩ := p
      rw [if_pos hc]
      have hk0 : k0 ≠ "" := hne (k0, v0) (List.mem_cons_self _ _)
      rw [mapFirstKey_cons]
      simp only [if_neg hk0]
      rw [mapDelete_cons_self]
      have h1 : (mapDelete rest k0).length ≤ rest.length := length_mapDelete_le rest k0
      have h2 := length_mapSet_le (mapDelete rest k0) token (now + SESSION_TTL_MS)
      simp only [List.length_cons] at hlen2
      omega
  · rw [if_neg hc]
    show (mapSet st token (now + SESSION_TTL_MS)).length ≤ cap
    have h2 := length_mapSet_le st token (now + SESSION_TTL_MS)
    omega

theorem keys_ne_mapSet {β : Type} {m : JsMap β} {k k0 : String} {v : β}
    (hm : ∀ p ∈ m, p.1 ≠ k0) (hk : k ≠ k0) : ∀ p ∈ mapSet m k v, p.1 ≠ k0 := by
  intro p hp
  unfold mapSet at hp
  by_cases hc : mapContains m k
  · rw [if_pos hc] at hp
    obtain ⟨q, hq, rfl⟩ := List.mem_map.1 hp
    by_cases hqk : q.1 = k
    · rw [if_pos hqk]
      exact hk
    · rw [if_neg hqk]
      exact hm q hq
  · rw [if_neg hc] at hp
    rcases List.mem_append.1 hp with h | h
    · exact hm p h
    · rw [List.mem_singleton.1 h]
      exact hk

theorem keys_ne_mapDelete {β : Type} {m : JsMap β} {k0 : String} (k : String)
    (hm : ∀ p ∈ m, p.1 ≠ k0) : ∀ p ∈ mapDelete m k, p.1 ≠ k0 :=
  fun p hp => hm p (List.mem_of_mem_filter hp)

theorem keys_ne_storeCap {cap now : Nat} {token : String} {st : SessionStore}
    (hst : ∀ p ∈ st, p.1 ≠ "") (htok : token ≠ "") :
    ∀ p ∈ storeSessionTokenCap cap now token st, p.1 ≠ "" := by
  unfold storeSessionTokenCap
  apply keys_ne_mapSet ?_ htok
  split
  · split
    · split
      · exact hst
      · exact keys_ne_mapDelete _ hst
    · exact hst
  · exact hst

theorem isValid_snd_cases (now : Nat) (token : String) (st : SessionStore) :
    (isValidSessionToken now token st).2 = st ∨
      (isValidSessionToken now token st).2 = mapDelete st token := by
  unfold isValidSessionToken
  cases mapGet st token with
  | none => exact Or.inl rfl
  | some e =>
    by_cases h0 : e = 0
    · exact Or.inl (by simp [h0])
    · by_cases hlt : e < now
      · exact Or.inr (by simp [h0, hlt])
      · exact Or.inl (by simp [h0, hlt])

theorem storeSequence_fill (cap now : Nat) :
    ∀ (ts : List String) (st : SessionStore),
      st.length + ts.length ≤ cap → ts.Nodup →
      (∀ t ∈ ts, mapContains st t = false) →
      storeSequence cap now ts st = st ++ ts.map fun t => (t, now + SESSION_TTL_MS) := by
  intro ts
  induction ts with
  | nil =>
    intro st _ _ _
    simp [storeSequence]
  | cons t rest ih =>
    intro st hlen hnd hcont
    have hstep : storeSessionTokenCap cap now t st = st ++ [(t, now + SESSION_TTL_MS)] := by
      unfold storeSessionTokenCap
      have hnotcap : ¬ cap ≤ st.length := by
        simp only [List.length_cons] at hlen
        omega
      rw [if_neg hnotcap]
      unfold mapSet
      rw [if_neg (by simp [hcont t (List.mem_cons_self _ _)])]
    have hchain : storeSequence cap now (t :: rest) st =
        storeSequence cap now rest (storeSessionTokenCap cap now t st) := rfl
    rw [hchain, hstep]
    have hnd2 : rest.Nodup := hnd.of_cons
    have htmem : t ∉ rest := (List.nodup_cons.1 hnd).1
    have ihres := ih (st ++ [(t, now + SESSION_TTL_MS)])
      (by
        simp only [List.length_append, List.length_cons, List.length_nil] at hlen ⊢
        omega)
      hnd2
      (by
        intro r hr
        rw [mapContains_append]
        have h1 : mapContains st r = false := hcont r (List.mem_cons_of_mem _ hr)
        have h2 : mapContains [(t, now + SESSION_TTL_MS)] r = false := by
          have : t ≠ r := fun h => htmem (h ▸ hr)
          simp [mapContains, this]
        rw [h1, h2]
        rfl)
    rw [ihres, List.append_assoc, List.singleton_append, List.map_cons]

theorem isValid_eq_of_none {now : Nat} {token : String} {st : SessionStore}
    (h : mapGet st token = none) : isValidSessionToken now token st = (false, st) := by
  unfold isValidSessionToken
  rw [h]

theorem isValid_eq_of_some {now : Nat} {token : String} {st : SessionStore} {e : Nat}
    (h : mapGet st token = some e) :
    isValidSessionToken now token st =
      if e = 0 then (false, st)
      else if e < now then (false, mapDelete st token)
      else (true, st) := by
  unfold isValidSessionToken
  rw [h]

theorem validateCsrf_safe_method (env : Env) (req : Request)
    (h : jsToUpper req.method = "GET" ∨ jsToUpper req.method = "HEAD" ∨
      jsToUpper req.method = "OPTIONS") :
    validateCsrf env req = true := by
  simp only [validateCsrf]
  rw [if_pos h]

theorem getClientIp_no_proxy {env : Env} (req : Request)
    (h : hasTrustedProxy env = false) : getClientIp env req = "local" := by
  simp [getClientIp, h]

/-! ### Claim theorems -/

/-- Claim C5: storing a token and immediately checking it yields `true`; once
the current time exceeds the expiry recorded at store time (store time plus
the 30-day TTL), `isValidSessionToken` returns `false` and removes the entry;
a token absent from the store (never stored) is reported invalid. -/
theorem c5_store_isValid_roundtrip :
    ∀ (st st0 : SessionStore) (now chk : Nat) (token other : String),
      (isValidSessionToken now token (storeSessionToken now token st)).1 = true
      ∧ (now + SESSION_TTL_MS < chk →
          (isValidSessionToken chk token (storeSessionToken now token st)).1 = false
          ∧ mapGet (isValidSessionToken chk token (storeSessionToken now token st)).2
              token = none)
      ∧ (mapGet st0 other = none → (isValidSessionToken chk other st0).1 = false) := by
  intro st st0 now chk token other
  have hget : mapGet (storeSessionToken now token st) token = some (now + SESSION_TTL_MS) := by
    unfold storeSessionToken storeSessionTokenCap
    exact mapGet_mapSet_self _ _ _
  have httl : SESSION_TTL_MS = 2592000000 := rfl
  refine ⟨?_, ?_, ?_⟩
  · rw [isValid_eq_of_some hget, if_neg (by omega), if_neg (by omega)]
  · intro hchk
    rw [isValid_eq_of_some hget, if_neg (by omega), if_pos (by omega)]
    exact ⟨rfl, mapGet_mapDelete_self _ _⟩
  · intro habs
    rw [isValid_eq_of_none habs]

/-- Claim C7: with no trusted proxy configured, `getClientIp` returns the
fixed placeholder `"local"` regardless of the `x-real-ip` and
`x-forwarded-for` headers, so the result is independent of those headers; a
result other than the placeholder can occur only when a trusted proxy is
configured. -/
theorem c7_getClientIp_trusted_proxy_gate :
    (∀ (env : Env) (req : Request), hasTrustedProxy env = false →
      getClientIp env req = "local")
    ∧ (∀ (env : Env) (req req2 : Request), hasTrustedProxy env = false →
        getClientIp env req = getClientIp env req2)
    ∧ (∀ (env : Env) (req : Request), getClientIp env req ≠ "local" →
        hasTrustedProxy env = true) := by
  refine ⟨fun env req h => getClientIp_no_proxy req h, ?_, ?_⟩
  · intro env req req2 h
    rw [getClientIp_no_proxy req h, getClientIp_no_proxy req2 h]
  · intro env req hne
    cases hb : hasTrustedProxy env with
    | false => exact absurd (getClientIp_no_proxy req hb) hne
    | true => rfl

/-- Claim C2: `requireAuth` returns the 401 response exactly when the request
is not authenticated; otherwise the 403 response exactly when CSRF validation
fails (which is possible only for a mutating method); otherwise `none`
(proceed).  No other outcome exists, and the checks apply in that order. -/
theorem c2_requireAuth_trichotomy :
    ∀ (env : Env) (now : Nat) (st : SessionStore) (req : Request),
      (requireAuth env now st req = some unauthorizedResponse ↔
        isAuthenticated env now st req = false)
      ∧ (requireAuth env now st req = some csrfFailedResponse ↔
          (isAuthenticated env now st req = true ∧ validateCsrf env req = false))
      ∧ (requireAuth env now st req = none ↔
          (isAuthenticated env now st req = true ∧ validateCsrf env req = true))
      ∧ (∀ r, requireAuth env now st req = some r →
          r = unauthorizedResponse ∨ r = csrfFailedResponse)
      ∧ (validateCsrf env req = false →
          ¬(jsToUpper req.method = "GET" ∨ jsToUpper req.method = "HEAD" ∨
            jsToUpper req.method = "OPTIONS"))
      ∧ unauthorizedResponse.status = 401 ∧ csrfFailedResponse.status = 403 := by
  intro env now st req
  have hne : unauthorizedResponse ≠ csrfFailedResponse := by decide
  have hsafe : validateCsrf env req = false →
      ¬(jsToUpper req.method = "GET" ∨ jsToUpper req.method = "HEAD" ∨
        jsToUpper req.method = "OPTIONS") := by
    intro hfalse hs
    have htrue := validateCsrf_safe_method env req hs
    rw [hfalse] at htrue
    exact Bool.false_ne_true htrue
  cases hA : isAuthenticated env now st req with
  | false =>
    have hreq : requireAuth env now st req = some unauthorizedResponse := by
      simp [requireAuth, hA]
    refine ⟨?_, ?_, ?_, ?_, hsafe, rfl, rfl⟩
    · simp [hreq]
    · simp [hreq, hne]
    · simp [hreq]
    · intro r hr
      rw [hreq] at hr
      exact Or.inl (Option.some.inj hr).symm
  | true =>
    cases hC : validateCsrf env req with
    | false =>
      have hreq : requireAuth env now st req = some csrfFailedResponse := by
        simp [requireAuth, hA, hC]
      refine ⟨?_, ?_, ?_, ?_, fun _ => hsafe hC, rfl, rfl⟩
      · simp [hreq, Ne.symm hne]
      · simp [hreq]
      · simp [hreq]
      · intro r hr
        rw [hreq] at hr
        exact Or.inr (Option.some.inj hr).symm
    | true =>
      have hreq : requireAuth env now st req = none := by
        simp [requireAuth, hA, hC]
      refine ⟨?_, ?_, ?_, ?_, fun h => absurd h (by simp), rfl, rfl⟩
      · simp [hreq]
      · simp [hreq]
      · simp [hreq]
      · intro r hr
        rw [hreq] at hr
        exact absurd hr (by simp)

/-- Claim C1 counterexample: with the hash descriptor `"salt:x:00"` (configured
and containing the delimiter) the hash path throws — `parseInt("x")` is `NaN` —
yet `verifyPassword` of the matching plaintext password returns `true`,
because the source's empty `catch` falls through to the plaintext comparison
instead of failing closed.  So a parse failure does not always make
`verifyPassword` return `false`, and a malformed descriptor can yield a
successful verification. -/
theorem c1_counterexample :
    hashVerifyAttempt (fun _ _ _ => List.replicate 32 0) "salt:x:00" "pw" = .error ()
    ∧ strContainsChar ':' "salt:x:00" = true
    ∧ verifyPassword (fun _ _ _ => List.replicate 32 0)
        ⟨some "pw", some "salt:x:00", none, none⟩ "pw" = true :=
  ⟨rfl, by decide, by decide⟩

/-- Claim C1 (amended): when a hash descriptor is configured, any parse or
derivation failure inside the hash verification path is caught and never
propagates (`verifyPassword` is a total function), and the call falls through
to the plaintext comparison; in particular, when no plaintext password is
configured (unset or empty) a failing hash path makes `verifyPassword` return
`false`. -/
theorem c1_hash_failure_falls_back (derive : String → String → Nat → List Nat)
    (env : Env) (password hc : String)
    (henv : env.clawsuitePasswordHash = some hc)
    (herr : hashVerifyAttempt derive hc password = .error ()) :
    verifyPassword derive env password = plaintextCompare env password
    ∧ ((env.clawsuitePassword = none ∨ env.clawsuitePassword = some "") →
        verifyPassword derive env password = false) := by
  have hfall : verifyPassword derive env password = plaintextCompare env password := by
    by_cases hcol : hc ≠ "" ∧ strContainsChar ':' hc
    · simp only [verifyPassword, henv]
      rw [if_pos hcol, herr]
    · simp only [verifyPassword, henv]
      rw [if_neg hcol]
  refine ⟨hfall, fun hnone => ?_⟩
  rw [hfall]
  rcases hnone with h | h <;> simp [plaintextCompare, h]

/-- Claim C1 witness: a concrete failing hash path with no plaintext password
configured, where `verifyPassword` returns `false`. -/
theorem c1_witness :
    verifyPassword (fun _ _ _ => List.replicate 32 0)
      ⟨none, some "salt:x:00", none, none⟩ "pw" = false :=
  (c1_hash_failure_falls_back (fun _ _ _ => List.replicate 32 0)
    ⟨none, some "salt:x:00", none, none⟩ "pw" "salt:x:00" rfl rfl).2 (Or.inl rfl)

/-- Claim C3: `validateCsrf` passes the safe methods GET, HEAD and OPTIONS
without inspecting any token; passes unconditionally when password protection
is disabled; and otherwise passes iff both a cookie-carried token and a
header-carried token are present (a token being present means a non-empty
value, since JS treats an empty string as no token), have equal byte length,
and are byte-equal.  Any missing value, length difference or content mismatch
fails. -/
theorem c3_validateCsrf_iff :
    ∀ (env : Env) (req : Request),
      validateCsrf env req = true ↔
        ((jsToUpper req.method = "GET" ∨ jsToUpper req.method = "HEAD" ∨
          jsToUpper req.method = "OPTIONS")
         ∨ isPasswordProtectionEnabled env = false
         ∨ (∃ c h, getCsrfTokenFromCookie req.cookie = some c ∧ req.csrfHeader = some h
             ∧ c ≠ "" ∧ h ≠ ""
             ∧ (strBytes c).length = (strBytes h).length ∧ strBytes c = strBytes h)) := by
  intro env req
  simp only [validateCsrf]
  by_cases hm : jsToUpper req.method = "GET" ∨ jsToUpper req.method = "HEAD" ∨
      jsToUpper req.method = "OPTIONS"
  · rw [if_pos hm]
    simp [hm]
  · rw [if_neg hm]
    by_cases hen : isPasswordProtectionEnabled env = true
    · rw [if_neg (by simp [hen])]
      cases hcook : getCsrfTokenFromCookie req.cookie with
      | none => simp [hm, hen, hcook]
      | some c =>
        cases hhead : req.csrfHeader with
        | none => simp [hm, hen, hcook, hhead]
        | some h =>
          show (if c = "" ∨ h = "" then false
                else if (strBytes c).length ≠ (strBytes h).length then false
                else decide (strBytes c = strBytes h)) = true ↔ _
          simp only [hm, false_or]
          constructor
          · intro hval
            by_cases hce : c = "" ∨ h = ""
            · rw [if_pos hce] at hval
              exact absurd hval (by simp)
            · rw [if_neg hce] at hval
              push_neg at hce
              by_cases hlen : (strBytes c).length ≠ (strBytes h).length
              · rw [if_pos hlen] at hval
                exact absurd hval (by simp)
              · rw [if_neg hlen] at hval
                push_neg at hlen
                rw [decide_eq_true_eq] at hval
                exact Or.inr ⟨c, h, rfl, rfl, hce.1, hce.2, hlen, hval⟩
          · rintro (hb | hb)
            · rw [hb] at hen
              exact absurd hen (by simp)
            · obtain ⟨c1, h1, hc1, hh1, hcne1, hhne1, hl, hbytes⟩ := hb
              injection hc1 with hc1e
              injection hh1 with hh1e
              subst hc1e
              subst hh1e
              rw [if_neg (by push_neg; exact ⟨hcne1, hhne1⟩), if_neg (by simp [hl]),
                decide_eq_true_eq]
              exact hbytes
    · rw [Bool.not_eq_true] at hen
      rw [if_pos (by simp [hen])]
      simp [hen]

/-- Claim C4: storing N+1 distinct session tokens (non-empty strings, as all
tokens that `generateSessionToken` produces are) into an empty store of
capacity N evicts exactly the earliest-stored token — checking it afterwards
yields `false` — while each of the other N tokens is still valid when checked
before any expiry has elapsed. -/
theorem c4_eviction_of_earliest (N : Nat) (ts : List String) (now chk : Nat)
    (hN : 0 < N) (hlen : ts.length = N + 1) (hnd : ts.Nodup)
    (hne : ∀ t ∈ ts, t ≠ "") (hchk : chk ≤ now + SESSION_TTL_MS) :
    (isValidSessionToken chk (ts.headD "") (storeSequence N now ts [])).1 = false
    ∧ ∀ t ∈ ts.tail, (isValidSessionToken chk t (storeSequence N now ts [])).1 = true := by
  have httl : SESSION_TTL_MS = 2592000000 := rfl
  cases ts with
  | nil => simp at hlen
  | cons t0 rest =>
    rcases List.eq_nil_or_concat rest with rfl | ⟨mid, tN, hconcat⟩
    · simp at hlen
      omega
    · rw [List.concat_eq_append] at hconcat
      subst hconcat
      have hlmid : (t0 :: mid).length = N := by
        simp only [List.length_cons, List.length_append, List.length_nil] at hlen ⊢
        omega
      have hndinit : (t0 :: mid).Nodup := by
        refine List.Nodup.sublist ?_ hnd
        exact List.Sublist.cons₂ t0 (List.sublist_append_left mid [tN])
      have ht0mem : t0 ∉ mid ++ [tN] := (List.nodup_cons.1 hnd).1
      have hndrest : (mid ++ [tN]).Nodup := (List.nodup_cons.1 hnd).2
      have htNmid : ∀ x ∈ mid, x ≠ tN := by
        intro x hx heq
        exact (List.nodup_append.1 hndrest).2.2 hx (by simp [heq])
      have hfill : storeSequence N now (t0 :: mid) [] =
          (t0 :: mid).map fun t => (t, now + SESSION_TTL_MS) := by
        have h := storeSequence_fill N now (t0 :: mid) []
          (by simp [hlmid]) hndinit (by intro t _; rfl)
        simpa using h
      have hsplit : storeSequence N now (t0 :: (mid ++ [tN])) [] =
          storeSessionTokenCap N now tN (storeSequence N now (t0 :: mid) []) := by
        show List.foldl _ _ (t0 :: (mid ++ [tN])) = _
        rw [show t0 :: (mid ++ [tN]) = (t0 :: mid) ++ [tN] from rfl, List.foldl_append]
        rfl
      have ht0 : t0 ≠ "" := hne t0 (List.mem_cons_self _ _)
      have hF : storeSessionTokenCap N now tN ((t0 :: mid).map fun t => (t, now + SESSION_TTL_MS)) =
          (mid ++ [tN]).map fun t => (t, now + SESSION_TTL_MS) := by
        unfold storeSessionTokenCap
        have hlenF : ((t0 :: mid).map fun t => (t, now + SESSION_TTL_MS)).length = N := by
          rw [List.length_map]
          exact hlmid
        rw [if_pos (le_of_eq hlenF.symm), List.map_cons, mapFirstKey_cons]
        simp only [if_neg ht0]
        rw [mapDelete_cons_self]
        have hdel : mapDelete (mid.map fun t => (t, now + SESSION_TTL_MS)) t0 =
            mid.map fun t => (t, now + SESSION_TTL_MS) := by
          apply mapDelete_eq_self_of
          intro p hp
          obtain ⟨x, hx, rfl⟩ := List.mem_map.1 hp
          intro hx0
          exact ht0mem (by simp only [← hx0]; exact List.mem_append_left _ hx)
        rw [hdel]
        unfold mapSet
        rw [if_neg (by
          simp only [Bool.not_eq_true]
          rw [mapContains_eq_false_iff]
          intro p hp
          obtain ⟨x, hx, rfl⟩ := List.mem_map.1 hp
          exact htNmid x hx)]
        rw [List.map_append, List.map_cons]
        rfl
      rw [hsplit, hfill, hF]
      constructor
      · show (isValidSessionToken chk t0 _).1 = false
        have hnone : mapGet ((mid ++ [tN]).map fun t => (t, now + SESSION_TTL_MS)) t0 = none := by
          rw [mapGet_const_list, if_neg ht0mem]
        rw [isValid_eq_of_none hnone]
      · intro t ht
        simp only [List.tail_cons] at ht
        have hsome : mapGet ((mid ++ [tN]).map fun t => (t, now + SESSION_TTL_MS)) t =
            some (now + SESSION_TTL_MS) := by
          rw [mapGet_const_list, if_pos ht]
        rw [isValid_eq_of_some hsome, if_neg (by omega), if_neg (by omega)]

/-- Claim C4 witness: with capacity 1, storing the distinct tokens "a" then
"b" evicts "a" while "b" stays valid. -/
theorem c4_witness :
    (isValidSessionToken 0 (["a", "b"].headD "") (storeSequence 1 0 ["a", "b"] [])).1 = false
    ∧ ∀ t ∈ ["a", "b"].tail, (isValidSessionToken 0 t (storeSequence 1 0 ["a", "b"] [])).1 = true :=
  c4_eviction_of_earliest 1 ["a", "b"] 0 0 (by decide) (by decide) (by decide)
    (by decide) (by decide)

/-- Claim C8: the session store's size never exceeds the capacity.  Storing
(with its eviction), validity checking (with its lazy deletion) and
revocation each preserve `size ≤ N` from any state of session tokens
(non-empty strings, as generated tokens are); when the store is at capacity
the earliest-inserted entry is evicted (gone from the map) before the new one
is added; the source's capacity constant is 1000 and `storeSessionToken` is
that instance. -/
theorem c8_capacity_invariant :
    (∀ (cap now : Nat) (token : String) (st : SessionStore), 0 < cap →
      st.length ≤ cap → (∀ p ∈ st, p.1 ≠ "") →
      (storeSessionTokenCap cap now token st).length ≤ cap)
    ∧ (∀ (now : Nat) (token : String) (st : SessionStore),
        ((isValidSessionToken now token st).2).length ≤ st.length)
    ∧ (∀ (token : String) (st : SessionStore),
        (revokeSessionToken token st).length ≤ st.length)
    ∧ (∀ (now : Nat) (token k0 : String) (v0 : Nat) (rest : SessionStore) (cap : Nat),
        ((k0, v0) :: rest).length = cap → keysNodup ((k0, v0) :: rest) →
        k0 ≠ "" → k0 ≠ token →
        mapGet (storeSessionTokenCap cap now token ((k0, v0) :: rest)) k0 = none
        ∧ mapGet (storeSessionTokenCap cap now token ((k0, v0) :: rest)) token =
            some (now + SESSION_TTL_MS))
    ∧ MAX_SESSIONS = 1000
    ∧ (∀ (now : Nat) (token : String) (st : SessionStore),
        storeSessionToken now token st = storeSessionTokenCap MAX_SESSIONS now token st) := by
  refine ⟨length_storeCap_le, ?_, ?_, ?_, rfl, fun _ _ _ => rfl⟩
  · intro now token st
    rcases isValid_snd_cases now token st with hcase | hcase
    · rw [hcase]
    · rw [hcase]
      exact length_mapDelete_le st token
  · intro token st
    exact length_mapDelete_le st token
  · intro now token k0 v0 rest cap hcap hnd hk0 hk0tok
    unfold storeSessionTokenCap
    rw [if_pos (le_of_eq hcap.symm), mapFirstKey_cons]
    simp only [if_neg hk0]
    rw [mapDelete_cons_self]
    have hnotmem : ∀ p ∈ rest, p.1 ≠ k0 := by
      intro p hp hpk
      have hmem : k0 ∈ rest.map Prod.fst := hpk ▸ List.mem_map_of_mem Prod.fst hp
      have hnd2 : ¬ k0 ∈ rest.map Prod.fst := by
        have := hnd
        unfold keysNodup at this
        rw [List.map_cons] at this
        exact (List.nodup_cons.1 this).1
      exact hnd2 hmem
    rw [mapDelete_eq_self_of hnotmem]
    constructor
    · rw [mapGet_mapSet_ne _ _ hk0tok]
      exact mapGet_eq_none_of_forall hnotmem
    · exact mapGet_mapSet_self _ _ _

/-- Claim C9 counterexample: the session-store module's complete operation
set is store, check and revoke — it has no timer-driven maintenance task —
so an expired entry that is never itself re-checked survives both the passage
of time and further request processing.  Concretely, "a" and "b" are stored
at time 0; at time `SESSION_TTL_MS + 1` (past both expiries) a request checks
"b" (which is lazily deleted), yet the expired, never-re-checked "a" is still
in the store: no sweep has purged it. -/
theorem c9_counterexample :
    mapGet (runSessionOps
        [SessionOp.store 0 "a", SessionOp.store 0 "b",
         SessionOp.check (SESSION_TTL_MS + 1) "b"]) "a" = some SESSION_TTL_MS := by
  decide

/-- Claim C9 (amended): `auth-middleware.ts` has no periodic maintenance task
for the session store; expired entries are removed only lazily when their
token is checked (or revoked).  Memory nonetheless stays bounded for tokens
stored and never checked again, because eviction in `storeSessionToken` keeps
the store at no more than `MAX_SESSIONS` entries over every request-driven
history (of non-empty tokens) starting from the empty store. -/
theorem c9_no_sweep_size_bounded (ops : List SessionOp)
    (h : "" ∉ storedTokens ops) :
    (runSessionOps ops).length ≤ MAX_SESSIONS := by
  have haux : ∀ (l : List SessionOp) (st : SessionStore),
      st.length ≤ MAX_SESSIONS → (∀ p ∈ st, p.1 ≠ "") → "" ∉ storedTokens l →
      (l.foldl applySessionOp st).length ≤ MAX_SESSIONS := by
    intro l
    induction l with
    | nil =>
      intro st h1 _ _
      simpa using h1
    | cons op rest ih =>
      intro st h1 h2 h3
      rw [List.foldl_cons]
      cases op with
      | store now token =>
        have hsplit : token ≠ "" ∧ "" ∉ storedTokens rest := by
          rw [show storedTokens (SessionOp.store now token :: rest) =
            token :: storedTokens rest from rfl] at h3
          exact ⟨fun heq => h3 (heq ▸ List.mem_cons_self _ _),
            fun hmem => h3 (List.mem_cons_of_mem _ hmem)⟩
        show ((rest.foldl applySessionOp) (storeSessionTokenCap MAX_SESSIONS now token st)).length
          ≤ MAX_SESSIONS
        exact ih _ (length_storeCap_le _ _ _ _ (by decide) h1 h2)
          (keys_ne_storeCap h2 hsplit.1) hsplit.2
      | check now token =>
        have h3r : "" ∉ storedTokens rest := h3
        rcases isValid_snd_cases now token st with hcase | hcase
        · show ((rest.foldl applySessionOp) (isValidSessionToken now token st).2).length
            ≤ MAX_SESSIONS
          rw [hcase]
          exact ih st h1 h2 h3r
        · show ((rest.foldl applySessionOp) (isValidSessionToken now token st).2).length
            ≤ MAX_SESSIONS
          rw [hcase]
          exact ih _ (le_trans (length_mapDelete_le st token) h1)
            (keys_ne_mapDelete token h2) h3r
      | revoke token =>
        have h3r : "" ∉ storedTokens rest := h3
        exact ih _ (le_trans (length_mapDelete_le st token) h1)
          (keys_ne_mapDelete token h2) h3r
  exact haux ops [] (by simp) (by simp) h

/-- Claim C9 witness: a concrete request-driven history stays within the
capacity bound. -/
theorem c9_witness :
    (runSessionOps
      [SessionOp.store 0 "a", SessionOp.check 5 "a", SessionOp.revoke "a"]).length
      ≤ MAX_SESSIONS :=
  c9_no_sweep_size_bounded
    [SessionOp.store 0 "a", SessionOp.check 5 "a", SessionOp.revoke "a"] (by decide)

/-- Claim C6: with `maxRequests = 3` and `windowMs = 1000`, three calls whose
timestamps lie within one window all pass, a fourth within the same window is
blocked and records no timestamp (the stored list is unchanged), and a later
call after the window has fully elapsed passes again; in general, a call is
allowed iff fewer than `maxRequests` retained timestamps are younger than
`now - windowMs`, and the timestamp `now` is recorded exactly when the call
is allowed. -/
theorem c6_rate_limit_sliding_window (key : String) (t1 t2 t3 t4 t5 : Int)
    (h12 : t1 ≤ t2) (h23 : t2 ≤ t3) (h34 : t3 ≤ t4) (hwin : t4 - t1 < 1000)
    (h5 : t3 + 1000 ≤ t5) :
    (rateLimit key 3 1000 t1 [] = (true, [(key, [t1])])
     ∧ rateLimit key 3 1000 t2 [(key, [t1])] = (true, [(key, [t1, t2])])
     ∧ rateLimit key 3 1000 t3 [(key, [t1, t2])] = (true, [(key, [t1, t2, t3])])
     ∧ rateLimit key 3 1000 t4 [(key, [t1, t2, t3])] = (false, [(key, [t1, t2, t3])])
     ∧ rateLimit key 3 1000 t5 [(key, [t1, t2, t3])] = (true, [(key, [t5])]))
    ∧ (∀ (st : RateStore) (maxRequests : Nat) (windowMs now : Int),
        ((rateLimit key maxRequests windowMs now st).1 = true ↔
          (((mapGet st key).getD []).filter
            (fun t => decide (now - t < windowMs))).length < maxRequests)
        ∧ mapGet (rateLimit key maxRequests windowMs now st).2 key =
            some ((((mapGet st key).getD []).filter (fun t => decide (now - t < windowMs)))
              ++ (if (((mapGet st key).getD []).filter
                    (fun t => decide (now - t < windowMs))).length < maxRequests
                  then [now] else []))) := by
  constructor
  · refine ⟨?_, ?_, ?_, ?_, ?_⟩
    · simp [rateLimit, mapSet, mapContains]
    · have hA : t2 - t1 < 1000 := by omega
      simp [rateLimit, mapSet, mapContains, hA]
    · have hA : t3 - t1 < 1000 := by omega
      have hB : t3 - t2 < 1000 := by omega
      simp [rateLimit, mapSet, mapContains, hA, hB]
    · have hA : t4 - t1 < 1000 := by omega
      have hB : t4 - t2 < 1000 := by omega
      have hC : t4 - t3 < 1000 := by omega
      simp [rateLimit, mapSet, mapContains, hA, hB, hC]
    · have hA : ¬ (t5 - t1 < 1000) := by omega
      have hB : ¬ (t5 - t2 < 1000) := by omega
      have hC : ¬ (t5 - t3 < 1000) := by omega
      simp [rateLimit, mapSet, mapContains, hA, hB, hC]
  · intro st maxRequests windowMs now
    unfold rateLimit
    by_cases hb : maxRequests ≤
        (((mapGet st key).getD []).filter (fun t => decide (now - t < windowMs))).length
    · rw [if_pos hb]
      constructor
      · constructor
        · intro hfalse
          exact absurd hfalse (by simp)
        · intro hlt
          omega
      · show mapGet (mapSet st key _) key = _
        rw [mapGet_mapSet_self, if_neg (by omega)]
        simp
    · rw [if_neg hb]
      constructor
      · exact ⟨fun _ => by omega, fun _ => rfl⟩
      · show mapGet (mapSet st key _) key = _
        rw [mapGet_mapSet_self, if_pos (by omega)]

/-- Claim C6 witness: the scenario at concrete times 0, 1, 2, 3 and 1002 —
the fourth call inside the window is blocked and leaves the recorded
timestamps unchanged. -/
theorem c6_witness :
    rateLimit "k" 3 1000 3 [("k", [0, 1, 2])] = (false, [("k", [0, 1, 2])]) :=
  (c6_rate_limit_sliding_window "k" 0 1 2 3 1002 (by decide) (by decide) (by decide)
    (by decide) (by decide)).1.2.2.2.1

theorem forall_ne_of_mapGet_none {β : Type} {m : JsMap β} {k : String}
    (h : mapGet m k = none) : ∀ p ∈ m, p.1 ≠ k := by
  induction m with
  | nil =>
    intro p hp
    cases hp
  | cons q rest ih =>
    obtain ⟨k1, v1⟩ := q
    rw [mapGet_cons] at h
    by_cases hk : k1 = k
    · rw [if_pos hk] at h
      exact absurd h (by simp)
    · rw [if_neg hk] at h
      intro p hp
      rcases List.mem_cons.1 hp with rfl | hp2
      · exact hk
      · exact ih h p hp2

theorem mapGet_cleanup_none {st : RateStore} {key : String} (now : Int)
    (h : mapGet st key = none) : mapGet (rateLimitCleanup now st) key = none := by
  apply mapGet_eq_none_of_forall
  intro p hp
  have hp2 := List.mem_of_mem_filter hp
  obtain ⟨q, hq, rfl⟩ := List.mem_map.1 hp2
  exact forall_ne_of_mapGet_none h q hq

/-- Claim C10: one run of the rate limiter's cleanup sweep keeps, for every
key, exactly the timestamps younger than the fixed 120000 ms cutoff — a bound
independent of any `windowMs` ever passed to `rateLimit` — and deletes keys
whose list becomes empty.  Consequently, for a window larger than the cutoff
(200000 ms, maxRequests 1), a sweep can erase a timestamp that is still
inside the window, letting a second call through within one window where the
un-swept store would have blocked it. -/
theorem c10_cleanup_cutoff_independent_of_window :
    (∀ (st : RateStore) (now : Int) (key : String), keysNodup st →
      mapGet (rateLimitCleanup now st) key =
        ((mapGet st key).map fun l =>
          l.filter (fun t => decide (now - t < CLEANUP_MAX_AGE_MS))).bind
          (fun f => if f.isEmpty then none else some f))
    ∧ CLEANUP_MAX_AGE_MS = 120000
    ∧ (rateLimit "k" 1 200000 0 [] = (true, [("k", [0])])
       ∧ (rateLimit "k" 1 200000 160000 [("k", [0])]).1 = false
       ∧ rateLimitCleanup 150000 [("k", [0])] = []
       ∧ (rateLimit "k" 1 200000 160000 []).1 = true) := by
  refine ⟨?_, rfl, by decide, by decide, by decide, by decide⟩
  intro st now key
  induction st with
  | nil =>
    intro _
    rfl
  | cons p rest ih =>
    intro hnd
    obtain ⟨k1, l1⟩ := p
    have hnd2 : keysNodup rest := by
      have := hnd
      unfold keysNodup at this ⊢
      rw [List.map_cons] at this
      exact (List.nodup_cons.1 this).2
    have hk1mem : ∀ q ∈ rest, q.1 ≠ k1 := by
      intro q hq hqk
      have : k1 ∈ rest.map Prod.fst := hqk ▸ List.mem_map_of_mem Prod.fst hq
      have hnotin : ¬ k1 ∈ rest.map Prod.fst := by
        have h2 := hnd
        unfold keysNodup at h2
        rw [List.map_cons] at h2
        exact (List.nodup_cons.1 h2).1
      exact hnotin this
    show mapGet (((((k1, l1) :: rest).map fun p =>
        (p.1, p.2.filter (fun t => decide (now - t < CLEANUP_MAX_AGE_MS)))).filter
        (fun p => !p.2.isEmpty))) key = _
    rw [List.map_cons, List.filter_cons]
    by_cases hf : ((l1.filter (fun t => decide (now - t < CLEANUP_MAX_AGE_MS))).isEmpty)
    · rw [if_neg (by simp [hf])]
      by_cases hk : k1 = key
      · subst hk
        have hrest : mapGet rest k1 = none := mapGet_eq_none_of_forall hk1mem
        have hclean : mapGet (rateLimitCleanup now rest) k1 = none :=
          mapGet_cleanup_none now hrest
        rw [show ((rest.map fun p =>
            (p.1, p.2.filter (fun t => decide (now - t < CLEANUP_MAX_AGE_MS)))).filter
            (fun p => !p.2.isEmpty)) = rateLimitCleanup now rest from rfl, hclean]
        rw [mapGet_cons, if_pos rfl]
        simp only [Option.map_some', Option.some_bind]
        rw [if_pos hf]
      · rw [show ((rest.map fun p =>
            (p.1, p.2.filter (fun t => decide (now - t < CLEANUP_MAX_AGE_MS)))).filter
            (fun p => !p.2.isEmpty)) = rateLimitCleanup now rest from rfl, ih hnd2]
        rw [mapGet_cons, if_neg hk]
    · rw [if_pos (by simp [hf])]
      by_cases hk : k1 = key
      · subst hk
        rw [mapGet_cons, if_pos rfl, mapGet_cons, if_pos rfl]
        simp only [Option.map_some', Option.some_bind]
        rw [if_neg hf]
      · rw [mapGet_cons, if_neg hk, mapGet_cons, if_neg hk]
        rw [show ((rest.map fun p =>
            (p.1, p.2.filter (fun t => decide (now - t < CLEANUP_MAX_AGE_MS)))).filter
            (fun p => !p.2.isEmpty)) = rateLimitCleanup now rest from rfl, ih hnd2]

end ClawSuite
